import Mathlib

/-!
Shallow embedding of the search execution engine of
`src/calibre/gui2/tweak_book/search.py`: pattern flag computation and the
compiled-pattern cache (`get_search_regex`, `regex_cache`), scope resolution
(`initialize_search_request`) and the batch orchestration of `run_search`
(`do_all`, checkpointing for replace-all, counting).

The regex engine itself (the external `regex` library) is a collaborator:
it is represented abstractly where the source only calls into it
(`subn`, `findall`), and concretely where the source fixes its behaviour
(flag bits, `regex.escape(raw, special_only=True)`).
-/

namespace CalibreSearch

/-- Search mode, the source's `state['mode']`: `normal` (literal),
`regex`, or `function` (regex with a registered replace function). -/
inductive Mode
  | normal
  | regex
  | function
deriving DecidableEq

/-- Search direction, the source's `state['direction']`: `up` is backward,
`down` is forward. -/
inductive Direction
  | up
  | down
deriving DecidableEq

/-- Scope selector, the source's `state['where']`.  `selected_text` is the
marked-region scope (the source's string key is `selected-text`). -/
inductive Where
  | current
  | styles
  | text
  | selected
  | selected_text
deriving DecidableEq

/-- The operation being run, the source's `action` argument. -/
inductive Action
  | find
  | replace
  | replace_find
  | replace_all
  | count
deriving DecidableEq

/-- The search request, the source's `state` dict built by
`SearchWidget.state` and consumed by `get_search_regex` and
`initialize_search_request`. -/
structure SState where
  find : String
  replace : String
  mode : Mode
  case_sensitive : Bool
  dot_all : Bool
  direction : Direction
  wrap : Bool
  where_ : Where
deriving DecidableEq

/-! Flag bit values of the external `regex` module, as published by that
library; the source combines them with `|`. -/

def IGNORECASE : Nat := 2

def MULTILINE : Nat := 8

def DOTALL : Nat := 16

def UNICODE : Nat := 32

def VERSION1 : Nat := 256

def REVERSE : Nat := 1024

def WORD : Nat := 2048

def FULLCASE : Nat := 16384

/-- Source line 31:
`REGEX_FLAGS = regex.VERSION1 | regex.WORD | regex.FULLCASE | regex.MULTILINE | regex.UNICODE`. -/
def REGEX_FLAGS : Nat := VERSION1 ||| WORD ||| FULLCASE ||| MULTILINE ||| UNICODE

/-- The characters the external `regex` module's
`escape(raw, special_only=True)` treats as metacharacters and
backslash-escapes. -/
def METACHARS : List Char :=
  ['(', ')', '[', ']', '\x7b', '\x7d', '?', '*', '+', '|', '^', '$', '\\', '.', '-', '#', '&', '~']

/-- One character of `regex.escape(raw, special_only=True)`: metacharacters
get a backslash prefix, the NUL character becomes the octal escape, every
other character passes through. -/
def escapeChar (c : Char) : List Char :=
  if c ∈ METACHARS then ['\\', c]
  else if c = '\x00' then ['\\', '0', '0', '0']
  else [c]

/-- `regex.escape(raw, special_only=True)` over a character list. -/
def escapeL : List Char → List Char
  | [] => []
  | c :: r => escapeChar c ++ escapeL r

/-- Matching semantics of the regex engine restricted to the fragment
produced by escaping a NUL-free literal: a backslash-escaped character
matches exactly that character, any other pattern character matches
itself.  `litMatch p s` holds when the pattern `p` matches the whole
string `s`. -/
def litMatch : List Char → List Char → Bool
  | [], s => s.isEmpty
  | '\\' :: ps, s =>
    match ps, s with
    | e :: ps2, d :: ss => e == d && litMatch ps2 ss
    | _, _ => false
  | c :: ps, d :: ss => c == d && litMatch ps ss
  | _ :: _, [] => false

/-- Source line 1041: `is_regex = state['mode'] != 'normal'`. -/
def isRegexMode (state : SState) : Bool := state.mode ≠ Mode.normal

/-- The pattern text handed to `regex.compile` by `get_search_regex`
(source lines 1040-1043): the raw find text, escaped first when the mode
is literal. -/
def getSearchRegexRaw (state : SState) : List Char :=
  if isRegexMode state then state.find.data else escapeL state.find.data

/-- The flag set computed by `get_search_regex` (source lines 1044-1050). -/
def getSearchRegexFlags (state : SState) : Nat :=
  let flags := REGEX_FLAGS
  let flags := if ¬ state.case_sensitive then flags ||| IGNORECASE else flags
  let flags := if isRegexMode state ∧ state.dot_all then flags ||| DOTALL else flags
  if state.direction = Direction.up then flags ||| REVERSE else flags

theorem escapeL_no_lone_backslash_aux (c : Char) (hc : c ∈ METACHARS) : c ≠ '\x00' := by
  intro h
  subst h
  simp [METACHARS] at hc

/-- Soundness and completeness of literal escaping: the escaped pattern of
a NUL-free raw text matches exactly that raw text. -/
theorem litMatch_escapeL (raw : List Char) (h0 : '\x00' ∉ raw) :
    ∀ s, litMatch (escapeL raw) s = true ↔ s = raw := by
  induction raw with
  | nil =>
    intro s
    cases s <;> simp [escapeL, litMatch]
  | cons c r ih =>
    have hc0 : c ≠ '\x00' := fun h => h0 (h ▸ List.mem_cons_self c r)
    have hr0 : '\x00' ∉ r := fun h => h0 (List.mem_cons_of_mem c h)
    intro s
    by_cases hm : c ∈ METACHARS
    · have hpat : escapeL (c :: r) = '\\' :: c :: escapeL r := by
        simp [escapeL, escapeChar, hm]
      rw [hpat]
      cases s with
      | nil => simp [litMatch]
      | cons d ss =>
        have : litMatch ('\\' :: c :: escapeL r) (d :: ss) = (c == d && litMatch (escapeL r) ss) := by
          simp [litMatch]
        rw [this]
        constructor
        · intro h
          have h1 : c = d := by
            have := (Bool.and_eq_true _ _).mp h
            exact (beq_iff_eq).mp this.1
          have h2 : ss = r := (ih hr0 ss).mp ((Bool.and_eq_true _ _).mp h).2
          rw [h1, h2]
        · intro h
          have h1 : d = c := by injection h
          have h2 : ss = r := by injection h
          rw [h1, h2]
          simp [ih hr0 r]
    · have hbs : c ≠ '\\' := by
        intro h
        apply hm
        rw [h]
        simp [METACHARS]
      have hpat : escapeL (c :: r) = c :: escapeL r := by
        simp [escapeL, escapeChar, hm, hc0]
      rw [hpat]
      cases s with
      | nil => simp [litMatch, hbs]
      | cons d ss =>
        have : litMatch (c :: escapeL r) (d :: ss) = (c == d && litMatch (escapeL r) ss) := by
          simp [litMatch, hbs]
        rw [this]
        constructor
        · intro h
          have h1 : c = d := (beq_iff_eq).mp ((Bool.and_eq_true _ _).mp h).1
          have h2 : ss = r := (ih hr0 ss).mp ((Bool.and_eq_true _ _).mp h).2
          rw [h1, h2]
        · intro h
          have h1 : d = c := by injection h
          have h2 : ss = r := by injection h
          rw [h1, h2]
          simp [ih hr0 r]

/-! Pattern cache.  Source line 383: `regex_cache = {}`; compiled pattern
objects are modelled by the `Nat` identity they receive at allocation, so
"pointer-identical" is identity of that number.  Whether
`regex.compile(raw, flags)` succeeds is the external library's business and
is passed in as `compileOk`. -/

/-- The process-wide `regex_cache` dict: association list from
`(flags, raw)` keys to compiled-pattern identities, plus the allocator for
the next fresh identity. -/
structure RegexCache where
  entries : List ((Nat × List Char) × Nat)
  nextId : Nat
deriving DecidableEq

/-- Dictionary lookup `regex_cache.get((flags, raw), None)`. -/
def cacheLookup : List ((Nat × List Char) × Nat) → Nat × List Char → Option Nat
  | [], _ => Option.none
  | (k, v) :: rest, key => if k = key then some v else cacheLookup rest key

/-- `get_search_regex(state)` (source lines 1039-1058): compute the raw
pattern text and flags, return the cached compiled pattern on a hit, else
compile (allocating a fresh identity) and insert, or fail with the raw
text (`InvalidRegex`) without touching the cache. -/
def getSearchRegex (compileOk : Nat → List Char → Bool) (cache : RegexCache)
    (state : SState) : Except (List Char) (RegexCache × Nat) :=
  match cacheLookup cache.entries (getSearchRegexFlags state, getSearchRegexRaw state) with
  | some ans => Except.ok (cache, ans)
  | none =>
    if compileOk (getSearchRegexFlags state) (getSearchRegexRaw state) then
      Except.ok
        (⟨((getSearchRegexFlags state, getSearchRegexRaw state), cache.nextId) :: cache.entries,
          cache.nextId + 1⟩,
         cache.nextId)
    else
      Except.error (getSearchRegexRaw state)

/-- The host's `searchable_names` mapping: the members of each named
document group, in stable display order. -/
structure SearchableNames where
  styles : List String
  text : List String
  selected : List String
deriving DecidableEq

/-- `searchable_names[where]` for the three group scopes. -/
def SearchableNames.get (sn : SearchableNames) : Where → List String
  | Where.styles => sn.styles
  | Where.text => sn.text
  | Where.selected => sn.selected
  | _ => []

/-- The result tuple of `initialize_search_request`:
`(editor, where, files, do_all, marked)`. -/
structure SearchScope where
  editor : Option String
  where_ : Where
  files : List String
  do_all : Bool
  marked : Bool
deriving DecidableEq

/-- `initialize_search_request(state, action, current_editor,
current_editor_name, searchable_names)` (source lines 1060-1093).  The
editor object is modelled by an optional identity; document lists carry
the names only (the syntax tags of the source's `OrderedDict` values play
no role in the logic modelled here). -/
def initializeSearchRequest (state : SState) (action : Action)
    (current_editor : Option String) (current_editor_name : String)
    (searchable_names : SearchableNames) : SearchScope :=
  let doAllFlag := state.wrap || decide (action = Action.replace_all) || decide (action = Action.count)
  match state.where_ with
  | Where.current => ⟨current_editor, state.where_, [], doAllFlag, false⟩
  | Where.selected_text => ⟨current_editor, state.where_, [], doAllFlag, true⟩
  | w =>
    let files := searchable_names.get w
    if current_editor_name ∈ files then
      let idx := files.indexOf current_editor_name
      let before := files.take idx
      let after := files.drop (idx + 1)
      let lfiles :=
        match state.direction with
        | Direction.up =>
          before.reverse ++ (if doAllFlag then after.reverse ++ [current_editor_name] else [])
        | Direction.down =>
          after ++ (if doAllFlag then before ++ [current_editor_name] else [])
      ⟨current_editor, state.where_, lfiles, doAllFlag, false⟩
    else
      ⟨Option.none, state.where_, files, doAllFlag, false⟩

/-- The scope-resolution step of `run_search` (source lines 1111-1115):
a single request dict is wrapped into a one-element list, then the scope
and the wrap setting used for no-match reporting are taken from
`searches[0]` alone. -/
def runSearchScope (searches : List SState) (action : Action)
    (current_editor : Option String) (current_editor_name : String)
    (searchable_names : SearchableNames) : Option (SearchScope × Bool) :=
  match searches with
  | [] => Option.none
  | s :: _ =>
    some (initializeSearchRequest s action current_editor current_editor_name searchable_names, s.wrap)

/-! Batch orchestration.  A compiled pattern and its replacement are
abstract types `P` and `R`; the external regex engine's entry points the
source calls are collected in `RegexEngine`:
`subn p r raw = (new_text, occurrence_count)` models `p.subn(repl, raw)`
and `findallCount p raw` models `len(p.findall(raw))`.  The editor's
marked-region operations `editor.all_in_marked(p, repl)` and
`editor.all_in_marked(p)` are modelled in `MarkedOps`, operating on the
current editor's text. -/

structure RegexEngine (P R : Type) where
  subn : P → R → String → String × Nat
  findallCount : P → String → Nat

structure MarkedOps (P R : Type) where
  allInMarkedRepl : P → R → String → String × Nat
  allInMarkedCount : P → String → Nat

/-- The inner loop of `do_all` (source lines 1212-1223) for one compiled
pattern over the candidate documents: read each document's working text,
substitute (recording documents actually modified) or merely count.  The
accumulator is `(raw_data, updates, count)`. -/
def doAllDocs {P R : Type} (eng : RegexEngine P R) (replace : Bool) (p : P) (r : R) :
    List String → (String → String) × List String × Nat → (String → String) × List String × Nat
  | [], acc => acc
  | n :: rest, (rawData, updates, count) =>
    if replace then
      if 0 < (eng.subn p r (rawData n)).2 then
        doAllDocs eng replace p r rest
          (Function.update rawData n (eng.subn p r (rawData n)).1,
           if n ∈ updates then updates else n :: updates,
           count + (eng.subn p r (rawData n)).2)
      else
        doAllDocs eng replace p r rest (rawData, updates, count + (eng.subn p r (rawData n)).2)
    else
      doAllDocs eng replace p r rest (rawData, updates, count + eng.findallCount p (rawData n))

/-- The outer loop of `do_all` (source line 1209): the compiled patterns
are applied in request order, each full pass running over every candidate
document before the next pattern starts. -/
def doAllPatterns {P R : Type} (eng : RegexEngine P R) (replace : Bool) (lfiles : List String) :
    List (P × R) → (String → String) × List String × Nat →
      (String → String) × List String × Nat
  | [], acc => acc
  | pr :: rest, acc =>
    doAllPatterns eng replace lfiles rest (doAllDocs eng replace pr.1 pr.2 lfiles acc)

/-- `lfiles = files or {current_editor_name: editor.syntax}`
(source line 1199). -/
def effectiveFiles (files : List String) (current_editor_name : String) : List String :=
  if files.isEmpty then [current_editor_name] else files

/-- The in-memory phase of `do_all` (source lines 1195-1223): early return
when there is nothing to search, otherwise materialize the working set
(the document store itself serves as the initial `raw_data`: the source
copies each candidate's text, live buffer or persisted, into `raw_data`
before any substitution) and run every pattern over every candidate.
Returns the final working set, the set of modified documents and the
total occurrence count. -/
def doAllCore {P R : Type} (eng : RegexEngine P R) (searches : List (P × R)) (replace : Bool)
    (files : List String) (editor : Option String) (current_editor_name : String)
    (docs : String → String) : (String → String) × List String × Nat :=
  if files.isEmpty && editor.isNone then (docs, [], 0)
  else doAllPatterns eng replace (effectiveFiles files current_editor_name) searches (docs, [], 0)

/-- `do_all` (source lines 1195-1234): the in-memory phase followed by the
write-back loop (source lines 1225-1231), which stores the working-set
text of exactly the modified documents; every other document keeps its
previous text.  Returns the total count and the final document store. -/
def doAll {P R : Type} (eng : RegexEngine P R) (searches : List (P × R)) (replace : Bool)
    (files : List String) (editor : Option String) (current_editor_name : String)
    (docs : String → String) : Nat × (String → String) :=
  ((doAllCore eng searches replace files editor current_editor_name docs).2.2,
   fun m =>
     if m ∈ (doAllCore eng searches replace files editor current_editor_name docs).2.1 then
       (doAllCore eng searches replace files editor current_editor_name docs).1 m
     else docs m)

/-- Sequential composition of substitution passes in request order: the
text threads through the passes, the counts add up.  Used both as the
specification the in-memory phase is proved against and as the model of
the marked-scope loop `sum(editor.all_in_marked(p, repl) for ...)`. -/
def composeSubs {P R : Type} (step : P → R → String → String × Nat)
    (searches : List (P × R)) (s : String) : String × Nat :=
  searches.foldl
    (fun acc pr => ((step pr.1 pr.2 acc.1).1, acc.2 + (step pr.1 pr.2 acc.1).2))
    (s, 0)

/-- The observable outcome of one `run_search` batch action: the reported
occurrence count, the document store afterwards, and which checkpoint and
modification calls were made (`add_savepoint`, `rewind_savepoint`,
`set_modified`). -/
structure BatchOutcome where
  count : Nat
  docs : String → String
  savepointCreated : Bool
  savepointRewound : Bool
  setModifiedCalled : Bool

/-- The batch branches of `run_search` (source lines 1243-1256).
`replace-all`: marked scope delegates to the editor's marked-region
replacement for each pattern in order with no checkpoint involvement;
otherwise a savepoint is created, `do_all` runs, and the savepoint is
rewound when the count is zero or kept with `set_modified()` called
otherwise.  `count`: marked scope sums the editor's marked-region counts;
otherwise `do_all(replace=False)` runs with no checkpoint involvement.
The cursor-based actions (`find`, `replace`, `replace-find`) are outside
this model. -/
def runSearchBatch {P R : Type} (eng : RegexEngine P R) (mops : MarkedOps P R)
    (searches : List (P × R)) (action : Action) (scope : SearchScope)
    (current_editor_name : String) (docs : String → String) : Option BatchOutcome :=
  match action with
  | Action.replace_all =>
    if scope.marked then
      some ⟨(composeSubs mops.allInMarkedRepl searches (docs current_editor_name)).2,
            Function.update docs current_editor_name
              (composeSubs mops.allInMarkedRepl searches (docs current_editor_name)).1,
            false, false, false⟩
    else
      some ⟨(doAll eng searches true scope.files scope.editor current_editor_name docs).1,
            (doAll eng searches true scope.files scope.editor current_editor_name docs).2,
            true,
            decide ((doAll eng searches true scope.files scope.editor current_editor_name docs).1 = 0),
            ! decide ((doAll eng searches true scope.files scope.editor current_editor_name docs).1 = 0)⟩
  | Action.count =>
    if scope.marked then
      some ⟨(searches.map (fun pr => mops.allInMarkedCount pr.1 (docs current_editor_name))).sum,
            docs, false, false, false⟩
    else
      some ⟨(doAll eng searches false scope.files scope.editor current_editor_name docs).1,
            (doAll eng searches false scope.files scope.editor current_editor_name docs).2,
            false, false, false⟩
  | _ => Option.none

/-! Helper lemmas about the scope resolver. -/

theorem take_indexOf_append_drop {l : List String} {a : String} (h : a ∈ l) :
    l.take (l.indexOf a) ++ a :: l.drop (l.indexOf a + 1) = l := by
  induction l with
  | nil => cases h
  | cons b t ih =>
    by_cases hb : b = a
    · subst hb
      rw [List.indexOf_cons_self]
      simp
    · have ht : a ∈ t := by
        cases List.mem_cons.mp h with
        | inl h1 => exact absurd h1.symm hb
        | inr h2 => exact h2
      rw [List.indexOf_cons_ne t hb]
      simpa using ih ht

theorem not_mem_take_indexOf {l : List String} {a : String} :
    a ∉ l.take (l.indexOf a) := by
  induction l with
  | nil => simp
  | cons b t ih =>
    by_cases hb : b = a
    · subst hb
      rw [List.indexOf_cons_self]
      simp
    · rw [List.indexOf_cons_ne t hb]
      intro hmem
      rcases List.mem_cons.mp (by simpa using hmem) with h1 | h2
      · exact hb h1.symm
      · exact ih h2

theorem doAllFlag_eq_true {state : SState} {action : Action}
    (hex : state.wrap = true ∨ action = Action.replace_all ∨ action = Action.count) :
    (state.wrap || decide (action = Action.replace_all) || decide (action = Action.count)) = true := by
  rcases hex with h | h | h <;> simp [h]

/-- Reduction of `initialize_search_request` for a group scope whose
member list contains the current document, forward direction, exhaustive
search: the current editor starts, and the rest is
`after ++ before ++ [current]`. -/
theorem initializeSearchRequest_forward_exhaustive
    (state : SState) (action : Action) (ce : Option String) (cen : String)
    (sn : SearchableNames)
    (hw : state.where_ = Where.styles ∨ state.where_ = Where.text ∨ state.where_ = Where.selected)
    (hdir : state.direction = Direction.down)
    (hex : state.wrap = true ∨ action = Action.replace_all ∨ action = Action.count)
    (hmem : cen ∈ sn.get state.where_) :
    initializeSearchRequest state action ce cen sn =
      ⟨ce, state.where_,
        (sn.get state.where_).drop ((sn.get state.where_).indexOf cen + 1) ++
          ((sn.get state.where_).take ((sn.get state.where_).indexOf cen) ++ [cen]),
        true, false⟩ := by
  have hda := doAllFlag_eq_true hex
  rcases hw with h | h | h <;>
    simp [initializeSearchRequest, h, hdir, hda, hmem, SearchableNames.get] at hmem ⊢ <;>
    simp [h, hmem, hda]

/-- Reduction of `initialize_search_request` for a group scope whose
member list contains the current document, backward direction, exhaustive
search: the rest is `reverse(before) ++ reverse(after) ++ [current]`. -/
theorem initializeSearchRequest_backward_exhaustive
    (state : SState) (action : Action) (ce : Option String) (cen : String)
    (sn : SearchableNames)
    (hw : state.where_ = Where.styles ∨ state.where_ = Where.text ∨ state.where_ = Where.selected)
    (hdir : state.direction = Direction.up)
    (hex : state.wrap = true ∨ action = Action.replace_all ∨ action = Action.count)
    (hmem : cen ∈ sn.get state.where_) :
    initializeSearchRequest state action ce cen sn =
      ⟨ce, state.where_,
        ((sn.get state.where_).take ((sn.get state.where_).indexOf cen)).reverse ++
          (((sn.get state.where_).drop ((sn.get state.where_).indexOf cen + 1)).reverse ++ [cen]),
        true, false⟩ := by
  have hda := doAllFlag_eq_true hex
  rcases hw with h | h | h <;>
    simp [initializeSearchRequest, h, hdir, hda, hmem, SearchableNames.get] at hmem ⊢ <;>
    simp [h, hmem, hda]

/-- Reduction of `initialize_search_request` for a group scope whose
member list does not contain the current document: no starting editor,
and the group is passed through unchanged whatever the direction is. -/
theorem initializeSearchRequest_not_member
    (state : SState) (action : Action) (ce : Option String) (cen : String)
    (sn : SearchableNames)
    (hw : state.where_ = Where.styles ∨ state.where_ = Where.text ∨ state.where_ = Where.selected)
    (hnm : cen ∉ sn.get state.where_) :
    initializeSearchRequest state action ce cen sn =
      ⟨Option.none, state.where_, sn.get state.where_,
        state.wrap || decide (action = Action.replace_all) || decide (action = Action.count),
        false⟩ := by
  rcases hw with h | h | h <;>
    simp [initializeSearchRequest, h, SearchableNames.get] at hnm ⊢ <;>
    simp [h, hnm]

/-- List facts about the forward exhaustive order
`after ++ before ++ [cen]` over a duplicate-free group containing `cen`. -/
theorem forward_order_facts {g : List String} {cen : String}
    (hmem : cen ∈ g) (hnd : g.Nodup) :
    (g.drop (g.indexOf cen + 1) ++ (g.take (g.indexOf cen) ++ [cen])).Perm g ∧
    (g.drop (g.indexOf cen + 1) ++ (g.take (g.indexOf cen) ++ [cen])).Nodup ∧
    (g.drop (g.indexOf cen + 1) ++ (g.take (g.indexOf cen) ++ [cen])).count cen = 1 ∧
    (g.drop (g.indexOf cen + 1) ++ (g.take (g.indexOf cen) ++ [cen])).getLast? = some cen := by
  have hsplit : g.take (g.indexOf cen) ++ cen :: g.drop (g.indexOf cen + 1) = g :=
    take_indexOf_append_drop hmem
  have h1 : (g.take (g.indexOf cen) ++ [cen]) ++ g.drop (g.indexOf cen + 1) = g := by
    rw [List.append_assoc]
    simpa using hsplit
  have hp : (g.drop (g.indexOf cen + 1) ++ (g.take (g.indexOf cen) ++ [cen])).Perm g := by
    have h2 := @List.perm_append_comm _ (g.drop (g.indexOf cen + 1)) (g.take (g.indexOf cen) ++ [cen])
    rw [h1] at h2
    exact h2
  refine ⟨hp, hp.nodup_iff.mpr hnd, (hp.count_eq cen).trans (List.count_eq_one_of_mem hnd hmem), ?_⟩
  rw [← List.append_assoc, List.getLast?_concat]

/-- C2: for a group scope containing the current document, forward
direction, exhaustive search (wrap on, or replace-all/count), the resolver
starts at the current editor and the ordered rest is the members after the
current document, then those before it, then the current document itself —
a duplicate-free permutation of the whole group in which the current
document appears exactly once, last. -/
theorem claim_C2 (state : SState) (action : Action) (ce : Option String) (cen : String)
    (sn : SearchableNames)
    (hw : state.where_ = Where.styles ∨ state.where_ = Where.text ∨ state.where_ = Where.selected)
    (hdir : state.direction = Direction.down)
    (hex : state.wrap = true ∨ action = Action.replace_all ∨ action = Action.count)
    (hmem : cen ∈ sn.get state.where_)
    (hnd : (sn.get state.where_).Nodup) :
    (initializeSearchRequest state action ce cen sn).editor = ce ∧
    (initializeSearchRequest state action ce cen sn).files =
      (sn.get state.where_).drop ((sn.get state.where_).indexOf cen + 1) ++
        ((sn.get state.where_).take ((sn.get state.where_).indexOf cen) ++ [cen]) ∧
    ((initializeSearchRequest state action ce cen sn).files).Perm (sn.get state.where_) ∧
    ((initializeSearchRequest state action ce cen sn).files).Nodup ∧
    ((initializeSearchRequest state action ce cen sn).files).count cen = 1 ∧
    ((initializeSearchRequest state action ce cen sn).files).getLast? = some cen := by
  rw [initializeSearchRequest_forward_exhaustive state action ce cen sn hw hdir hex hmem]
  have h := forward_order_facts hmem hnd
  exact ⟨rfl, rfl, h.1, h.2.1, h.2.2.1, h.2.2.2⟩

def snC2 : SearchableNames := ⟨[], ["a", "b", "c"], []⟩

def stC2 : SState := ⟨"x", "y", Mode.normal, true, false, Direction.down, true, Where.text⟩

theorem claim_C2_witness :
    (initializeSearchRequest stC2 Action.find (some "b") "b" snC2).files = ["c", "a", "b"] ∧
    (initializeSearchRequest stC2 Action.find (some "b") "b" snC2).files.getLast? = some "b" := by
  have h := claim_C2 stC2 Action.find (some "b") "b" snC2
    (Or.inr (Or.inl rfl)) rfl (Or.inl rfl) (by decide) (by decide)
  refine ⟨?_, h.2.2.2.2.2⟩
  rw [h.2.1]
  decide

/-- Rebuild a request with a given direction, all other fields unchanged. -/
def withDirection (s : SState) (d : Direction) : SState :=
  ⟨s.find, s.replace, s.mode, s.case_sensitive, s.dot_all, d, s.wrap, s.where_⟩

def snC5 : SearchableNames := ⟨[], ["a", "b"], []⟩

def stC5up : SState := ⟨"x", "y", Mode.normal, true, false, Direction.up, false, Where.text⟩

def stC5down : SState := ⟨"x", "y", Mode.normal, true, false, Direction.down, false, Where.text⟩

/-- C5 counterexample: with group `["a", "b"]`, current document `"a"` a
member, and the exhaustive replace-all operation, the backward order is
`["b", "a"]` while the reverse of the forward order is `["a", "b"]` — the
resolved backward order is not the reverse of the forward order. -/
theorem claim_C5_counterexample :
    (initializeSearchRequest stC5up Action.replace_all (some "a") "a" snC5).files ≠
      ((initializeSearchRequest stC5down Action.replace_all (some "a") "a" snC5).files).reverse := by
  decide

theorem backward_eq_dropLast_reverse (before after : List String) (cen : String) :
    before.reverse ++ (after.reverse ++ [cen]) =
      ((after ++ (before ++ [cen])).dropLast).reverse ++ [cen] := by
  rw [show after ++ (before ++ [cen]) = (after ++ before) ++ [cen] from
      (List.append_assoc after before [cen]).symm,
    List.dropLast_concat, List.reverse_append, List.append_assoc]

/-- C5 (amended): over the same group membership with the current document
a member and the search exhaustive, both direction orders end with the
current document, and the backward order with that final element removed
is the exact reverse of the forward order with its final element
removed. -/
theorem claim_C5_amended (state : SState) (action : Action) (ce : Option String) (cen : String)
    (sn : SearchableNames)
    (hw : state.where_ = Where.styles ∨ state.where_ = Where.text ∨ state.where_ = Where.selected)
    (hex : state.wrap = true ∨ action = Action.replace_all ∨ action = Action.count)
    (hmem : cen ∈ sn.get state.where_) :
    (initializeSearchRequest (withDirection state Direction.up) action ce cen sn).files =
      ((initializeSearchRequest (withDirection state Direction.down) action ce cen sn).files).dropLast.reverse
        ++ [cen] ∧
    (initializeSearchRequest (withDirection state Direction.down) action ce cen sn).files.getLast?
      = some cen ∧
    (initializeSearchRequest (withDirection state Direction.up) action ce cen sn).files.getLast?
      = some cen := by
  rw [initializeSearchRequest_forward_exhaustive (withDirection state Direction.down) action ce cen sn
      hw rfl hex hmem]
  rw [initializeSearchRequest_backward_exhaustive (withDirection state Direction.up) action ce cen sn
      hw rfl hex hmem]
  dsimp only [withDirection]
  refine ⟨?_, ?_, ?_⟩
  · exact backward_eq_dropLast_reverse _ _ cen
  · rw [← List.append_assoc, List.getLast?_concat]
  · rw [← List.append_assoc, List.getLast?_concat]

def snC5w : SearchableNames := ⟨[], ["a", "b", "c"], []⟩

def stC5w : SState := ⟨"x", "y", Mode.normal, true, false, Direction.down, true, Where.text⟩

theorem claim_C5_amended_witness :
    (initializeSearchRequest (withDirection stC5w Direction.up) Action.find (some "b") "b" snC5w).files
      = ["a", "c", "b"] ∧
    (initializeSearchRequest (withDirection stC5w Direction.down) Action.find (some "b") "b" snC5w).files
      = ["c", "a", "b"] := by
  have h := claim_C5_amended stC5w Action.find (some "b") "b" snC5w
    (Or.inr (Or.inl rfl)) (Or.inl rfl) (by decide)
  refine ⟨?_, by decide⟩
  rw [h.1]
  decide

def snC6 : SearchableNames := ⟨[], ["a", "b"], []⟩

def stC6up : SState := ⟨"x", "y", Mode.normal, true, false, Direction.up, true, Where.text⟩

/-- C6 counterexample: with group `["a", "b"]` and current document `"c"`
not a member, direction backward, the resolver returns the group in its
host-given order `["a", "b"]`, not the reversed order `["b", "a"]` the
claim requires for backward direction. -/
theorem claim_C6_counterexample :
    (initializeSearchRequest stC6up Action.find Option.none "c" snC6).files ≠
      (snC6.get Where.text).reverse := by
  decide

/-- C6 (amended): for a group scope where the current document is not a
member, the resolver returns no starting document and the ordered rest is
the whole group in its host-given order for both directions — the
backward direction does not reverse it. -/
theorem claim_C6_amended (state : SState) (action : Action) (ce : Option String) (cen : String)
    (sn : SearchableNames)
    (hw : state.where_ = Where.styles ∨ state.where_ = Where.text ∨ state.where_ = Where.selected)
    (hnm : cen ∉ sn.get state.where_) :
    (initializeSearchRequest (withDirection state Direction.down) action ce cen sn).editor
      = Option.none ∧
    (initializeSearchRequest (withDirection state Direction.down) action ce cen sn).files
      = sn.get state.where_ ∧
    (initializeSearchRequest (withDirection state Direction.up) action ce cen sn).editor
      = Option.none ∧
    (initializeSearchRequest (withDirection state Direction.up) action ce cen sn).files
      = sn.get state.where_ := by
  rw [initializeSearchRequest_not_member (withDirection state Direction.down) action ce cen sn hw hnm]
  rw [initializeSearchRequest_not_member (withDirection state Direction.up) action ce cen sn hw hnm]
  exact ⟨rfl, rfl, rfl, rfl⟩

def snC6w : SearchableNames := ⟨[], ["a", "b"], []⟩

def stC6w : SState := ⟨"x", "y", Mode.normal, true, false, Direction.up, true, Where.text⟩

theorem claim_C6_amended_witness :
    (initializeSearchRequest (withDirection stC6w Direction.up) Action.find (some "c") "c" snC6w).editor
      = Option.none ∧
    (initializeSearchRequest (withDirection stC6w Direction.up) Action.find (some "c") "c" snC6w).files
      = ["a", "b"] := by
  have h := claim_C6_amended stC6w Action.find (some "c") "c" snC6w
    (Or.inr (Or.inl rfl)) (by decide)
  exact ⟨h.2.2.1, h.2.2.2⟩

/-- `initialize_search_request` reads only the `where`, `direction` and
`wrap` fields of the request dict. -/
theorem initializeSearchRequest_congr (s1 s2 : SState) (action : Action)
    (ce : Option String) (cen : String) (sn : SearchableNames)
    (hw : s1.where_ = s2.where_) (hd : s1.direction = s2.direction)
    (hwr : s1.wrap = s2.wrap) :
    initializeSearchRequest s1 action ce cen sn = initializeSearchRequest s2 action ce cen sn := by
  rcases s1 with ⟨f1, r1, m1, cs1, da1, d1, w1, wh1⟩
  rcases s2 with ⟨f2, r2, m2, cs2, da2, d2, w2, wh2⟩
  dsimp only at hw hd hwr
  subst hw
  subst hd
  subst hwr
  cases wh1 <;> cases d1 <;> rfl

/-- C9: the scope-resolution step of `run_search` (the starting editor,
the ordered candidate file list, the exhaustive and marked flags, and the
wrap setting used for no-match reporting) is computed solely from the
first search's `where`/`direction`/`wrap` fields: any change to the
searches after the first, or to the other fields of the first, leaves the
resolved scope unchanged. -/
theorem claim_C9 (s1 s2 : SState) (rest1 rest2 : List SState) (action : Action)
    (ce : Option String) (cen : String) (sn : SearchableNames)
    (hw : s1.where_ = s2.where_) (hd : s1.direction = s2.direction)
    (hwr : s1.wrap = s2.wrap) :
    runSearchScope (s1 :: rest1) action ce cen sn = runSearchScope (s2 :: rest2) action ce cen sn := by
  simp only [runSearchScope]
  rw [initializeSearchRequest_congr s1 s2 action ce cen sn hw hd hwr, hwr]

def stC9a : SState := ⟨"x", "y", Mode.normal, true, false, Direction.down, true, Where.text⟩

def stC9b : SState := ⟨"zzz", "w", Mode.regex, false, true, Direction.down, true, Where.text⟩

def snC9 : SearchableNames := ⟨[], ["a", "b"], []⟩

theorem claim_C9_witness :
    runSearchScope [stC9a] Action.find (some "a") "a" snC9 =
      runSearchScope [stC9b, stC9a] Action.find (some "a") "a" snC9 :=
  claim_C9 stC9a stC9b [] [stC9a] Action.find (some "a") "a" snC9 rfl rfl rfl

/-- C3: the compiled pattern's flags always include the fixed engine
defaults (Unicode, word, full-case, multiline); case-insensitive matching
is enabled iff `case_sensitive` is false; dot-matches-newline is enabled
iff `dot_all` is set and the mode is regex or regex-function; reverse
matching is enabled iff the direction is backward (`up`); and in literal
mode the raw find text is escaped before compilation, so that the escaped
pattern matches exactly the raw text and nothing else. -/
theorem claim_C3 (state : SState) :
    getSearchRegexFlags state &&& UNICODE = UNICODE ∧
    getSearchRegexFlags state &&& WORD = WORD ∧
    getSearchRegexFlags state &&& FULLCASE = FULLCASE ∧
    getSearchRegexFlags state &&& MULTILINE = MULTILINE ∧
    (getSearchRegexFlags state &&& IGNORECASE = IGNORECASE ↔ state.case_sensitive = false) ∧
    (getSearchRegexFlags state &&& DOTALL = DOTALL ↔
      state.dot_all = true ∧ (state.mode = Mode.regex ∨ state.mode = Mode.function)) ∧
    (getSearchRegexFlags state &&& REVERSE = REVERSE ↔ state.direction = Direction.up) ∧
    (state.mode = Mode.normal → getSearchRegexRaw state = escapeL state.find.data) ∧
    (state.mode = Mode.normal → '\x00' ∉ state.find.data →
      ∀ s, litMatch (getSearchRegexRaw state) s = true ↔ s = state.find.data) := by
  rcases state with ⟨f, r, m, cs, da, dir, w, wh⟩
  have hraw : m = Mode.normal →
      getSearchRegexRaw ⟨f, r, m, cs, da, dir, w, wh⟩ = escapeL f.data := by
    intro hm
    subst hm
    simp [getSearchRegexRaw, isRegexMode]
  refine ⟨?_, ?_, ?_, ?_, ?_, ?_, ?_, hraw, ?_⟩
  · cases m <;> cases cs <;> cases da <;> cases dir <;>
      simp [getSearchRegexFlags, isRegexMode, REGEX_FLAGS, VERSION1, WORD, FULLCASE, MULTILINE,
        UNICODE, IGNORECASE, DOTALL, REVERSE] <;> decide
  · cases m <;> cases cs <;> cases da <;> cases dir <;>
      simp [getSearchRegexFlags, isRegexMode, REGEX_FLAGS, VERSION1, WORD, FULLCASE, MULTILINE,
        UNICODE, IGNORECASE, DOTALL, REVERSE] <;> decide
  · cases m <;> cases cs <;> cases da <;> cases dir <;>
      simp [getSearchRegexFlags, isRegexMode, REGEX_FLAGS, VERSION1, WORD, FULLCASE, MULTILINE,
        UNICODE, IGNORECASE, DOTALL, REVERSE] <;> decide
  · cases m <;> cases cs <;> cases da <;> cases dir <;>
      simp [getSearchRegexFlags, isRegexMode, REGEX_FLAGS, VERSION1, WORD, FULLCASE, MULTILINE,
        UNICODE, IGNORECASE, DOTALL, REVERSE] <;> decide
  · cases m <;> cases cs <;> cases da <;> cases dir <;>
      simp [getSearchRegexFlags, isRegexMode, REGEX_FLAGS, VERSION1, WORD, FULLCASE, MULTILINE,
        UNICODE, IGNORECASE, DOTALL, REVERSE] <;> decide
  · cases m <;> cases cs <;> cases da <;> cases dir <;>
      simp [getSearchRegexFlags, isRegexMode, REGEX_FLAGS, VERSION1, WORD, FULLCASE, MULTILINE,
        UNICODE, IGNORECASE, DOTALL, REVERSE] <;> decide
  · cases m <;> cases cs <;> cases da <;> cases dir <;>
      simp [getSearchRegexFlags, isRegexMode, REGEX_FLAGS, VERSION1, WORD, FULLCASE, MULTILINE,
        UNICODE, IGNORECASE, DOTALL, REVERSE] <;> decide
  · intro hm h0 s
    rw [hraw hm]
    exact litMatch_escapeL f.data h0 s

def stC3 : SState := ⟨"a+b", "", Mode.normal, false, true, Direction.up, true, Where.current⟩

theorem claim_C3_witness :
    getSearchRegexFlags stC3 &&& IGNORECASE = IGNORECASE ∧
    getSearchRegexFlags stC3 &&& REVERSE = REVERSE ∧
    litMatch (getSearchRegexRaw stC3) (String.data "a+b") = true := by
  have h := claim_C3 stC3
  exact ⟨h.2.2.2.2.1.mpr rfl, h.2.2.2.2.2.2.1.mpr rfl,
    (h.2.2.2.2.2.2.2.2 rfl (by decide) (String.data "a+b")).mpr rfl⟩

/-- C4: two compile requests with the same cache key (flag set, pattern
text) where the first succeeded: the second is a cache hit — it returns
the identical compiled-pattern object (same allocation identity) and
leaves the cache untouched, with no recompilation.  Taking the two
requests equal gives the literal-mode special case: compiling the same
raw text twice with the same options is pointer-identical. -/
theorem claim_C4 (compileOk : Nat → List Char → Bool) (cache : RegexCache)
    (s1 s2 : SState)
    (hflags : getSearchRegexFlags s1 = getSearchRegexFlags s2)
    (hraw : getSearchRegexRaw s1 = getSearchRegexRaw s2)
    (c1 : RegexCache) (p1 : Nat)
    (h1 : getSearchRegex compileOk cache s1 = Except.ok (c1, p1)) :
    getSearchRegex compileOk c1 s2 = Except.ok (c1, p1) := by
  unfold getSearchRegex at h1 ⊢
  rw [← hflags, ← hraw]
  cases hcl : cacheLookup cache.entries (getSearchRegexFlags s1, getSearchRegexRaw s1) with
  | some a =>
    rw [hcl] at h1
    have hc : cache = c1 ∧ a = p1 := by
      refine ⟨?_, ?_⟩ <;> · injection h1 with h2; injection h2
    rcases hc with ⟨hc1, hc2⟩
    subst hc1
    subst hc2
    rw [hcl]
  | none =>
    rw [hcl] at h1
    by_cases hok : compileOk (getSearchRegexFlags s1) (getSearchRegexRaw s1) = true
    · rw [if_pos hok] at h1
      have hc : (⟨((getSearchRegexFlags s1, getSearchRegexRaw s1), cache.nextId) :: cache.entries,
          cache.nextId + 1⟩ : RegexCache) = c1 ∧ cache.nextId = p1 := by
        refine ⟨?_, ?_⟩ <;> · injection h1 with h2; injection h2
      rcases hc with ⟨hc1, hc2⟩
      subst hc2
      rw [← hc1]
      simp [cacheLookup]
    · rw [if_neg hok] at h1
      exact absurd h1 (by simp)

def stC4 : SState := ⟨"a.c", "z", Mode.normal, true, false, Direction.down, true, Where.current⟩

theorem claim_C4_witness :
    getSearchRegex (fun _ _ => true)
        ⟨[((getSearchRegexFlags stC4, getSearchRegexRaw stC4), 0)], 1⟩ stC4 =
      Except.ok (⟨[((getSearchRegexFlags stC4, getSearchRegexRaw stC4), 0)], 1⟩, 0) :=
  claim_C4 (fun _ _ => true) ⟨[], 0⟩ stC4 stC4 rfl rfl
    ⟨[((getSearchRegexFlags stC4, getSearchRegexRaw stC4), 0)], 1⟩ 0 rfl

/-! Helper lemmas about the batch loops. -/

theorem doAllDocs_cons_replace {P R : Type} (eng : RegexEngine P R) (p : P) (r : R)
    (n : String) (rest : List String) (rd : String → String) (up : List String) (c : Nat) :
    doAllDocs eng true p r (n :: rest) (rd, up, c) =
      if 0 < (eng.subn p r (rd n)).2 then
        doAllDocs eng true p r rest
          (Function.update rd n (eng.subn p r (rd n)).1,
           if n ∈ up then up else n :: up,
           c + (eng.subn p r (rd n)).2)
      else doAllDocs eng true p r rest (rd, up, c + (eng.subn p r (rd n)).2) := by
  simp [doAllDocs]

theorem doAllPatterns_cons {P R : Type} (eng : RegexEngine P R) (b : Bool)
    (lfiles : List String) (pr : P × R) (rest : List (P × R))
    (acc : (String → String) × List String × Nat) :
    doAllPatterns eng b lfiles (pr :: rest) acc =
      doAllPatterns eng b lfiles rest (doAllDocs eng b pr.1 pr.2 lfiles acc) := rfl

/-- A counting pass (`replace=False`) leaves the working set and the
update set untouched and adds the per-document match counts. -/
theorem doAllDocs_count_only {P R : Type} (eng : RegexEngine P R) (p : P) (r : R) :
    ∀ (lfiles : List String) (rd : String → String) (up : List String) (c : Nat),
      doAllDocs eng false p r lfiles (rd, up, c) =
        (rd, up, c + (lfiles.map (fun n => eng.findallCount p (rd n))).sum) := by
  intro lfiles
  induction lfiles with
  | nil =>
    intro rd up c
    simp [doAllDocs]
  | cons n rest ih =>
    intro rd up c
    simp only [doAllDocs, Bool.false_eq_true, if_false, List.map_cons, List.sum_cons]
    rw [ih]
    simp [Nat.add_assoc]

theorem doAllPatterns_count_only {P R : Type} (eng : RegexEngine P R) (lfiles : List String) :
    ∀ (searches : List (P × R)) (rd : String → String) (up : List String) (c : Nat),
      doAllPatterns eng false lfiles searches (rd, up, c) =
        (rd, up, c + (searches.map
            (fun pr => (lfiles.map (fun n => eng.findallCount pr.1 (rd n))).sum)).sum) := by
  intro searches
  induction searches with
  | nil =>
    intro rd up c
    simp [doAllPatterns]
  | cons pr rest ih =>
    intro rd up c
    rw [doAllPatterns_cons, doAllDocs_count_only, ih]
    simp [Nat.add_assoc]

/-- If a replace pass ends with a total count of zero, it started at zero
and changed nothing at all. -/
theorem doAllDocs_zero {P R : Type} (eng : RegexEngine P R) (p : P) (r : R) :
    ∀ (lfiles : List String) (rd : String → String) (up : List String) (c : Nat),
      (doAllDocs eng true p r lfiles (rd, up, c)).2.2 = 0 →
      c = 0 ∧ doAllDocs eng true p r lfiles (rd, up, c) = (rd, up, c) := by
  intro lfiles
  induction lfiles with
  | nil =>
    intro rd up c h
    exact ⟨h, rfl⟩
  | cons n rest ih =>
    intro rd up c h
    rw [doAllDocs_cons_replace] at h ⊢
    by_cases hpos : 0 < (eng.subn p r (rd n)).2
    · rw [if_pos hpos] at h
      have hc := (ih _ _ _ h).1
      exact absurd hc (by omega)
    · rw [if_neg hpos] at h ⊢
      have hz1 : (eng.subn p r (rd n)).2 = 0 := by omega
      rw [hz1, Nat.add_zero] at h ⊢
      exact ih _ _ _ h

theorem doAllPatterns_zero {P R : Type} (eng : RegexEngine P R) (lfiles : List String) :
    ∀ (searches : List (P × R)) (rd : String → String) (up : List String) (c : Nat),
      (doAllPatterns eng true lfiles searches (rd, up, c)).2.2 = 0 →
      c = 0 ∧ doAllPatterns eng true lfiles searches (rd, up, c) = (rd, up, c) := by
  intro searches
  induction searches with
  | nil =>
    intro rd up c h
    exact ⟨h, rfl⟩
  | cons pr rest ih =>
    intro rd up c h
    rw [doAllPatterns_cons] at h ⊢
    rcases hA : doAllDocs eng true pr.1 pr.2 lfiles (rd, up, c) with ⟨rd1, up1, c1⟩
    rw [hA] at h
    obtain ⟨hc1, heq⟩ := ih rd1 up1 c1 h
    have h2 : (doAllDocs eng true pr.1 pr.2 lfiles (rd, up, c)).2.2 = 0 := by
      rw [hA]
      exact hc1
    obtain ⟨hc, hD⟩ := doAllDocs_zero eng pr.1 pr.2 lfiles rd up c h2
    have hE : (rd, up, c) = ((rd1, up1, c1) : (String → String) × List String × Nat) := by
      rw [← hD, hA]
    refine ⟨hc, ?_⟩
    rw [heq, ← hE]

/-- Only candidate documents can enter the update set. -/
theorem doAllDocs_updates_subset {P R : Type} (eng : RegexEngine P R) (p : P) (r : R) :
    ∀ (lfiles : List String) (rd : String → String) (up : List String) (c : Nat) (m : String),
      m ∈ (doAllDocs eng true p r lfiles (rd, up, c)).2.1 → m ∈ up ∨ m ∈ lfiles := by
  intro lfiles
  induction lfiles with
  | nil =>
    intro rd up c m h
    exact Or.inl h
  | cons n rest ih =>
    intro rd up c m h
    rw [doAllDocs_cons_replace] at h
    by_cases hpos : 0 < (eng.subn p r (rd n)).2
    · rw [if_pos hpos] at h
      rcases ih _ _ _ m h with h1 | h1
      · by_cases hn : n ∈ up
        · rw [if_pos hn] at h1
          exact Or.inl h1
        · rw [if_neg hn] at h1
          rcases List.mem_cons.mp h1 with h2 | h2
          · exact Or.inr (h2 ▸ List.mem_cons_self n rest)
          · exact Or.inl h2
      · exact Or.inr (List.mem_cons_of_mem n h1)
    · rw [if_neg hpos] at h
      rcases ih _ _ _ m h with h1 | h1
      · exact Or.inl h1
      · exact Or.inr (List.mem_cons_of_mem n h1)

theorem doAllPatterns_updates_subset {P R : Type} (eng : RegexEngine P R) (lfiles : List String) :
    ∀ (searches : List (P × R)) (rd : String → String) (up : List String) (c : Nat) (m : String),
      m ∈ (doAllPatterns eng true lfiles searches (rd, up, c)).2.1 → m ∈ up ∨ m ∈ lfiles := by
  intro searches
  induction searches with
  | nil =>
    intro rd up c m h
    exact Or.inl h
  | cons pr rest ih =>
    intro rd up c m h
    rw [doAllPatterns_cons] at h
    rcases hA : doAllDocs eng true pr.1 pr.2 lfiles (rd, up, c) with ⟨rd1, up1, c1⟩
    rw [hA] at h
    rcases ih rd1 up1 c1 m h with h1 | h1
    · have h2 : m ∈ (doAllDocs eng true pr.1 pr.2 lfiles (rd, up, c)).2.1 := by
        rw [hA]
        exact h1
      exact doAllDocs_updates_subset eng pr.1 pr.2 lfiles rd up c m h2
    · exact Or.inr h1

/-- A document absent from the final update set was never rewritten: its
working-set text is still its original text. -/
theorem doAllDocs_not_updated {P R : Type} (eng : RegexEngine P R) (p : P) (r : R) :
    ∀ (lfiles : List String) (rd : String → String) (up : List String) (c : Nat) (n : String),
      n ∉ (doAllDocs eng true p r lfiles (rd, up, c)).2.1 →
      n ∉ up ∧ (doAllDocs eng true p r lfiles (rd, up, c)).1 n = rd n := by
  intro lfiles
  induction lfiles with
  | nil =>
    intro rd up c n h
    exact ⟨h, rfl⟩
  | cons m rest ih =>
    intro rd up c n h
    rw [doAllDocs_cons_replace] at h ⊢
    by_cases hpos : 0 < (eng.subn p r (rd m)).2
    · rw [if_pos hpos] at h ⊢
      obtain ⟨hn, heq⟩ := ih _ _ _ n h
      have hnm : n ≠ m ∧ n ∉ up := by
        by_cases hmem : m ∈ up
        · rw [if_pos hmem] at hn
          exact ⟨fun he => hn (he ▸ hmem), hn⟩
        · rw [if_neg hmem] at hn
          exact ⟨fun he => hn (he ▸ List.mem_cons_self m up),
            fun hu => hn (List.mem_cons_of_mem m hu)⟩
      refine ⟨hnm.2, ?_⟩
      rw [heq, Function.update_noteq hnm.1]
    · rw [if_neg hpos] at h ⊢
      exact ih _ _ _ n h

theorem doAllPatterns_not_updated {P R : Type} (eng : RegexEngine P R) (lfiles : List String) :
    ∀ (searches : List (P × R)) (rd : String → String) (up : List String) (c : Nat) (n : String),
      n ∉ (doAllPatterns eng true lfiles searches (rd, up, c)).2.1 →
      n ∉ up ∧ (doAllPatterns eng true lfiles searches (rd, up, c)).1 n = rd n := by
  intro searches
  induction searches with
  | nil =>
    intro rd up c n h
    exact ⟨h, rfl⟩
  | cons pr rest ih =>
    intro rd up c n h
    rw [doAllPatterns_cons] at h ⊢
    obtain ⟨hn1, heq1⟩ := ih (doAllDocs eng true pr.1 pr.2 lfiles (rd, up, c)).1
      (doAllDocs eng true pr.1 pr.2 lfiles (rd, up, c)).2.1
      (doAllDocs eng true pr.1 pr.2 lfiles (rd, up, c)).2.2 n h
    obtain ⟨hn0, heq0⟩ := doAllDocs_not_updated eng pr.1 pr.2 lfiles rd up c n hn1
    exact ⟨hn0, heq1.trans heq0⟩

theorem composeSubs_shift {P R : Type} (step : P → R → String → String × Nat) :
    ∀ (l : List (P × R)) (s : String) (k : Nat),
      l.foldl (fun acc pr => ((step pr.1 pr.2 acc.1).1, acc.2 + (step pr.1 pr.2 acc.1).2)) (s, k) =
        ((composeSubs step l s).1, k + (composeSubs step l s).2) := by
  intro l
  induction l with
  | nil =>
    intro s k
    simp [composeSubs]
  | cons pr rest ih =>
    intro s k
    simp only [composeSubs, List.foldl_cons]
    rw [ih, ih]
    simp [Nat.add_assoc]

theorem composeSubs_cons {P R : Type} (step : P → R → String → String × Nat)
    (pr : P × R) (rest : List (P × R)) (s : String) :
    composeSubs step (pr :: rest) s =
      ((composeSubs step rest ((step pr.1 pr.2 s).1)).1,
       (step pr.1 pr.2 s).2 + (composeSubs step rest ((step pr.1 pr.2 s).1)).2) := by
  simp only [composeSubs, List.foldl_cons]
  rw [composeSubs_shift]
  simp [composeSubs]

theorem sum_map_add (l : List String) (f g : String → Nat) :
    (l.map (fun x => f x + g x)).sum = (l.map f).sum + (l.map g).sum := by
  induction l with
  | nil => rfl
  | cons a t ih =>
    simp only [List.map_cons, List.sum_cons, ih]
    omega

/-- One replace pass over duplicate-free candidates: every candidate's
working text becomes the substitution result of its previous text, other
documents are untouched, and the count grows by the sum of the
per-candidate occurrence counts.  The hypothesis `hz` is the regex
engine's guarantee that a substitution with zero occurrences returns the
input unchanged. -/
theorem doAllDocs_replace_spec {P R : Type} (eng : RegexEngine P R)
    (hz : ∀ (p : P) (r : R) (s : String), (eng.subn p r s).2 = 0 → (eng.subn p r s).1 = s)
    (p : P) (r : R) :
    ∀ (lfiles : List String) (rd : String → String) (up : List String) (c : Nat),
      lfiles.Nodup →
      (∀ n, n ∈ lfiles →
        (doAllDocs eng true p r lfiles (rd, up, c)).1 n = (eng.subn p r (rd n)).1) ∧
      (∀ n, n ∉ lfiles → (doAllDocs eng true p r lfiles (rd, up, c)).1 n = rd n) ∧
      (doAllDocs eng true p r lfiles (rd, up, c)).2.2 =
        c + (lfiles.map (fun n => (eng.subn p r (rd n)).2)).sum := by
  intro lfiles
  induction lfiles with
  | nil =>
    intro rd up c _
    refine ⟨fun n hn => absurd hn (List.not_mem_nil n), fun n _ => rfl, ?_⟩
    simp [doAllDocs]
  | cons m rest ih =>
    intro rd up c hnd
    obtain ⟨hm, hndr⟩ := List.nodup_cons.mp hnd
    by_cases hpos : 0 < (eng.subn p r (rd m)).2
    · have hred : doAllDocs eng true p r (m :: rest) (rd, up, c) =
        doAllDocs eng true p r rest
          (Function.update rd m (eng.subn p r (rd m)).1,
           if m ∈ up then up else m :: up,
           c + (eng.subn p r (rd m)).2) := by
        rw [doAllDocs_cons_replace, if_pos hpos]
      obtain ⟨ih1, ih2, ih3⟩ := ih (Function.update rd m (eng.subn p r (rd m)).1)
        (if m ∈ up then up else m :: up) (c + (eng.subn p r (rd m)).2) hndr
      rw [hred]
      refine ⟨?_, ?_, ?_⟩
      · intro n hn
        rcases List.mem_cons.mp hn with he | hr
        · subst he
          rw [ih2 n hm, Function.update_same]
        · have hne : n ≠ m := fun he => hm (by rw [← he]; exact hr)
          rw [ih1 n hr, Function.update_noteq hne]
      · intro n hn
        have hne : n ≠ m := fun he => hn (he ▸ List.mem_cons_self m rest)
        have hnr : n ∉ rest := fun hr => hn (List.mem_cons_of_mem m hr)
        rw [ih2 n hnr, Function.update_noteq hne]
      · rw [ih3]
        have hcongr : rest.map
            (fun n => (eng.subn p r (Function.update rd m (eng.subn p r (rd m)).1 n)).2) =
            rest.map (fun n => (eng.subn p r (rd n)).2) := by
          apply List.map_congr_left
          intro x hx
          rw [Function.update_noteq (fun he => hm (by rw [← he]; exact hx))]
        rw [hcongr]
        simp [List.sum_cons, Nat.add_assoc]
    · have hz1 : (eng.subn p r (rd m)).2 = 0 := by omega
      have hred : doAllDocs eng true p r (m :: rest) (rd, up, c) =
          doAllDocs eng true p r rest (rd, up, c) := by
        rw [doAllDocs_cons_replace, if_neg hpos, hz1, Nat.add_zero]
      obtain ⟨ih1, ih2, ih3⟩ := ih rd up c hndr
      rw [hred]
      refine ⟨?_, ?_, ?_⟩
      · intro n hn
        rcases List.mem_cons.mp hn with he | hr
        · subst he
          rw [ih2 n hm, hz p r (rd n) hz1]
        · exact ih1 n hr
      · intro n hn
        exact ih2 n (fun hr => hn (List.mem_cons_of_mem m hr))
      · rw [ih3]
        simp [List.sum_cons, hz1]

/-- The in-memory phase of the batch over duplicate-free candidates, all
patterns: every candidate's final working text is the sequential
composition of all substitution passes in request order on its original
text, other documents are untouched, and the total count is the sum over
candidates of the composed per-candidate counts. -/
theorem doAllPatterns_replace_spec {P R : Type} (eng : RegexEngine P R)
    (hz : ∀ (p : P) (r : R) (s : String), (eng.subn p r s).2 = 0 → (eng.subn p r s).1 = s)
    (lfiles : List String) (hnd : lfiles.Nodup) :
    ∀ (searches : List (P × R)) (rd : String → String) (up : List String) (c : Nat),
      (∀ n, n ∈ lfiles →
        (doAllPatterns eng true lfiles searches (rd, up, c)).1 n =
          (composeSubs eng.subn searches (rd n)).1) ∧
      (∀ n, n ∉ lfiles → (doAllPatterns eng true lfiles searches (rd, up, c)).1 n = rd n) ∧
      (doAllPatterns eng true lfiles searches (rd, up, c)).2.2 =
        c + (lfiles.map (fun n => (composeSubs eng.subn searches (rd n)).2)).sum := by
  intro searches
  induction searches with
  | nil =>
    intro rd up c
    refine ⟨fun n _ => rfl, fun n _ => rfl, ?_⟩
    simp [doAllPatterns, composeSubs]
  | cons pr rest ih =>
    intro rd up c
    obtain ⟨d1, d2, d3⟩ := doAllDocs_replace_spec eng hz pr.1 pr.2 lfiles rd up c hnd
    obtain ⟨i1, i2, i3⟩ := ih (doAllDocs eng true pr.1 pr.2 lfiles (rd, up, c)).1
      (doAllDocs eng true pr.1 pr.2 lfiles (rd, up, c)).2.1
      (doAllDocs eng true pr.1 pr.2 lfiles (rd, up, c)).2.2
    refine ⟨?_, ?_, ?_⟩
    · intro n hn
      rw [doAllPatterns_cons]
      have h1 : (doAllPatterns eng true lfiles rest
          (doAllDocs eng true pr.1 pr.2 lfiles (rd, up, c))).1 n =
          (composeSubs eng.subn rest
            ((doAllDocs eng true pr.1 pr.2 lfiles (rd, up, c)).1 n)).1 := i1 n hn
      rw [h1, d1 n hn, composeSubs_cons]
    · intro n hn
      rw [doAllPatterns_cons]
      have h1 : (doAllPatterns eng true lfiles rest
          (doAllDocs eng true pr.1 pr.2 lfiles (rd, up, c))).1 n =
          (doAllDocs eng true pr.1 pr.2 lfiles (rd, up, c)).1 n := i2 n hn
      rw [h1, d2 n hn]
    · rw [doAllPatterns_cons]
      have h1 : (doAllPatterns eng true lfiles rest
          (doAllDocs eng true pr.1 pr.2 lfiles (rd, up, c))).2.2 =
          (doAllDocs eng true pr.1 pr.2 lfiles (rd, up, c)).2.2 +
            (lfiles.map (fun n => (composeSubs eng.subn rest
              ((doAllDocs eng true pr.1 pr.2 lfiles (rd, up, c)).1 n)).2)).sum := i3
      rw [h1, d3]
      have hcongr : lfiles.map (fun n => (composeSubs eng.subn rest
            ((doAllDocs eng true pr.1 pr.2 lfiles (rd, up, c)).1 n)).2) =
          lfiles.map (fun n =>
            (composeSubs eng.subn rest ((eng.subn pr.1 pr.2 (rd n)).1)).2) := by
        apply List.map_congr_left
        intro x hx
        rw [d1 x hx]
      rw [hcongr]
      have hsplit : lfiles.map (fun n => (composeSubs eng.subn (pr :: rest) (rd n)).2) =
          lfiles.map (fun n => (eng.subn pr.1 pr.2 (rd n)).2 +
            (composeSubs eng.subn rest ((eng.subn pr.1 pr.2 (rd n)).1)).2) := by
        apply List.map_congr_left
        intro x _
        rw [composeSubs_cons]
      rw [hsplit, sum_map_add]
      omega

theorem doAllCore_zero {P R : Type} (eng : RegexEngine P R) (searches : List (P × R))
    (files : List String) (editor : Option String) (cen : String) (docs : String → String)
    (h : (doAllCore eng searches true files editor cen docs).2.2 = 0) :
    doAllCore eng searches true files editor cen docs = (docs, [], 0) := by
  unfold doAllCore at h ⊢
  by_cases hc : (files.isEmpty && editor.isNone) = true
  · rw [if_pos hc]
  · rw [if_neg hc] at h ⊢
    exact (doAllPatterns_zero eng (effectiveFiles files cen) searches docs [] 0 h).2

theorem doAllCore_updates_subset {P R : Type} (eng : RegexEngine P R) (searches : List (P × R))
    (files : List String) (editor : Option String) (cen : String) (docs : String → String)
    (m : String) (h : m ∈ (doAllCore eng searches true files editor cen docs).2.1) :
    m ∈ effectiveFiles files cen := by
  unfold doAllCore at h
  by_cases hc : (files.isEmpty && editor.isNone) = true
  · rw [if_pos hc] at h
    exact absurd h (List.not_mem_nil m)
  · rw [if_neg hc] at h
    rcases doAllPatterns_updates_subset eng (effectiveFiles files cen) searches docs [] 0 m h
      with h1 | h1
    · exact absurd h1 (List.not_mem_nil m)
    · exact h1

/-! Reduction lemmas for the four batch branches of `run_search`. -/

theorem runSearchBatch_replace_all_not_marked {P R : Type} (eng : RegexEngine P R)
    (mops : MarkedOps P R) (searches : List (P × R)) (scope : SearchScope)
    (cen : String) (docs : String → String) (hm : scope.marked = false) :
    runSearchBatch eng mops searches Action.replace_all scope cen docs =
      some ⟨(doAll eng searches true scope.files scope.editor cen docs).1,
            (doAll eng searches true scope.files scope.editor cen docs).2,
            true,
            decide ((doAll eng searches true scope.files scope.editor cen docs).1 = 0),
            ! decide ((doAll eng searches true scope.files scope.editor cen docs).1 = 0)⟩ := by
  simp [runSearchBatch, hm]

theorem runSearchBatch_replace_all_marked {P R : Type} (eng : RegexEngine P R)
    (mops : MarkedOps P R) (searches : List (P × R)) (scope : SearchScope)
    (cen : String) (docs : String → String) (hm : scope.marked = true) :
    runSearchBatch eng mops searches Action.replace_all scope cen docs =
      some ⟨(composeSubs mops.allInMarkedRepl searches (docs cen)).2,
            Function.update docs cen (composeSubs mops.allInMarkedRepl searches (docs cen)).1,
            false, false, false⟩ := by
  simp [runSearchBatch, hm]

theorem runSearchBatch_count_not_marked {P R : Type} (eng : RegexEngine P R)
    (mops : MarkedOps P R) (searches : List (P × R)) (scope : SearchScope)
    (cen : String) (docs : String → String) (hm : scope.marked = false) :
    runSearchBatch eng mops searches Action.count scope cen docs =
      some ⟨(doAll eng searches false scope.files scope.editor cen docs).1,
            (doAll eng searches false scope.files scope.editor cen docs).2,
            false, false, false⟩ := by
  simp [runSearchBatch, hm]

/-- C1: replace-all over a non-marked scope always creates the checkpoint
first.  If the total substituted-occurrence count is zero, the checkpoint
is rewound, the document set is not marked modified, and every document's
text is byte-for-byte unchanged.  If the count is positive, the
checkpoint is kept (not rewound), the document set is marked modified,
and the final store holds the precomputed working-set text on exactly the
updated documents — which all lie inside the candidate set — and the old
text everywhere else: all substitutions are computed in memory before any
write, so no partial-write state exists. -/
theorem claim_C1 {P R : Type} (eng : RegexEngine P R) (mops : MarkedOps P R)
    (searches : List (P × R)) (scope : SearchScope) (cen : String)
    (docs : String → String) (hm : scope.marked = false) (o : BatchOutcome)
    (ho : runSearchBatch eng mops searches Action.replace_all scope cen docs = some o) :
    o.savepointCreated = true ∧
    (o.count = 0 →
      o.savepointRewound = true ∧ o.setModifiedCalled = false ∧ ∀ m, o.docs m = docs m) ∧
    (0 < o.count →
      o.savepointRewound = false ∧ o.setModifiedCalled = true ∧
      (∀ m, m ∈ (doAllCore eng searches true scope.files scope.editor cen docs).2.1 →
        o.docs m = (doAllCore eng searches true scope.files scope.editor cen docs).1 m) ∧
      (∀ m, m ∉ (doAllCore eng searches true scope.files scope.editor cen docs).2.1 →
        o.docs m = docs m) ∧
      (∀ m, m ∈ (doAllCore eng searches true scope.files scope.editor cen docs).2.1 →
        m ∈ effectiveFiles scope.files cen)) := by
  rw [runSearchBatch_replace_all_not_marked eng mops searches scope cen docs hm] at ho
  obtain rfl : o = _ := (Option.some.inj ho).symm
  refine ⟨rfl, ?_, ?_⟩
  · intro h0
    have h0' : (doAllCore eng searches true scope.files scope.editor cen docs).2.2 = 0 := h0
    have hcore := doAllCore_zero eng searches scope.files scope.editor cen docs h0'
    refine ⟨?_, ?_, ?_⟩
    · show decide ((doAll eng searches true scope.files scope.editor cen docs).1 = 0) = true
      have hd : (doAll eng searches true scope.files scope.editor cen docs).1 = 0 := h0'
      simp [hd]
    · show (! decide ((doAll eng searches true scope.files scope.editor cen docs).1 = 0)) = false
      have : (doAll eng searches true scope.files scope.editor cen docs).1 = 0 := h0'
      simp [this]
    · intro m
      show (if m ∈ (doAllCore eng searches true scope.files scope.editor cen docs).2.1 then
          (doAllCore eng searches true scope.files scope.editor cen docs).1 m else docs m) = docs m
      rw [hcore]
      simp
  · intro hpos
    have hne : ¬ (doAll eng searches true scope.files scope.editor cen docs).1 = 0 := by
      have hp : 0 < (doAll eng searches true scope.files scope.editor cen docs).1 := hpos
      omega
    refine ⟨?_, ?_, ?_, ?_, ?_⟩
    · show decide ((doAll eng searches true scope.files scope.editor cen docs).1 = 0) = false
      simp [hne]
    · show (! decide ((doAll eng searches true scope.files scope.editor cen docs).1 = 0)) = true
      simp [hne]
    · intro m hmem
      show (if m ∈ (doAllCore eng searches true scope.files scope.editor cen docs).2.1 then
          (doAllCore eng searches true scope.files scope.editor cen docs).1 m else docs m) =
        (doAllCore eng searches true scope.files scope.editor cen docs).1 m
      rw [if_pos hmem]
    · intro m hmem
      show (if m ∈ (doAllCore eng searches true scope.files scope.editor cen docs).2.1 then
          (doAllCore eng searches true scope.files scope.editor cen docs).1 m else docs m) = docs m
      rw [if_neg hmem]
    · intro m hmem
      exact doAllCore_updates_subset eng searches scope.files scope.editor cen docs m hmem

/-- C7: replace-all over a non-marked, duplicate-free, non-empty scope
with several compiled (pattern, replacement) pairs applies the patterns
in request order with pattern order outermost: every candidate document's
final text is the sequential composition of the substitution passes (each
pass runs on the result of the previous patterns), and the reported total
is the sum over candidates of the composed per-candidate counts — that
is, the sum of the occurrence counts over all patterns and all candidate
documents. -/
theorem claim_C7 {P R : Type} (eng : RegexEngine P R) (mops : MarkedOps P R)
    (searches : List (P × R)) (scope : SearchScope) (cen : String)
    (docs : String → String) (hm : scope.marked = false)
    (heff : (scope.files.isEmpty && scope.editor.isNone) = false)
    (hnd : (effectiveFiles scope.files cen).Nodup)
    (hz : ∀ (p : P) (r : R) (s : String), (eng.subn p r s).2 = 0 → (eng.subn p r s).1 = s)
    (o : BatchOutcome)
    (ho : runSearchBatch eng mops searches Action.replace_all scope cen docs = some o) :
    o.count = ((effectiveFiles scope.files cen).map
      (fun n => (composeSubs eng.subn searches (docs n)).2)).sum ∧
    ∀ n, n ∈ effectiveFiles scope.files cen →
      o.docs n = (composeSubs eng.subn searches (docs n)).1 := by
  rw [runSearchBatch_replace_all_not_marked eng mops searches scope cen docs hm] at ho
  obtain rfl : o = _ := (Option.some.inj ho).symm
  have hcorered : doAllCore eng searches true scope.files scope.editor cen docs =
      doAllPatterns eng true (effectiveFiles scope.files cen) searches (docs, [], 0) := by
    unfold doAllCore
    rw [if_neg (by simp [heff])]
  obtain ⟨p1, p2, p3⟩ :=
    doAllPatterns_replace_spec eng hz (effectiveFiles scope.files cen) hnd searches docs [] 0
  refine ⟨?_, ?_⟩
  · show (doAllCore eng searches true scope.files scope.editor cen docs).2.2 = _
    rw [hcorered, p3]
    simp
  · intro n hn
    show (if n ∈ (doAllCore eng searches true scope.files scope.editor cen docs).2.1 then
        (doAllCore eng searches true scope.files scope.editor cen docs).1 n else docs n) =
      (composeSubs eng.subn searches (docs n)).1
    rw [hcorered]
    by_cases hu : n ∈
        (doAllPatterns eng true (effectiveFiles scope.files cen) searches (docs, [], 0)).2.1
    · rw [if_pos hu]
      exact p1 n hn
    · rw [if_neg hu]
      obtain ⟨_, hkeep⟩ := doAllPatterns_not_updated eng (effectiveFiles scope.files cen)
        searches docs [] 0 n hu
      conv_lhs => rw [← hkeep]
      exact p1 n hn

/-- C8: count over a non-marked, non-empty scope runs the same traversal
as replace-all (`do_all` with `replace=False`: every pattern over every
candidate, pattern order outermost) but creates, keeps and rewinds no
checkpoint, never marks the document set modified, and leaves every
document's text unchanged; its total is the sum over patterns and
candidate documents of the non-mutating match counts, and running it a
second time on the resulting store returns the identical outcome. -/
theorem claim_C8 {P R : Type} (eng : RegexEngine P R) (mops : MarkedOps P R)
    (searches : List (P × R)) (scope : SearchScope) (cen : String)
    (docs : String → String) (hm : scope.marked = false)
    (heff : (scope.files.isEmpty && scope.editor.isNone) = false)
    (o : BatchOutcome)
    (ho : runSearchBatch eng mops searches Action.count scope cen docs = some o) :
    o.savepointCreated = false ∧ o.savepointRewound = false ∧ o.setModifiedCalled = false ∧
    o.count = (searches.map (fun pr =>
      ((effectiveFiles scope.files cen).map (fun n => eng.findallCount pr.1 (docs n))).sum)).sum ∧
    (∀ m, o.docs m = docs m) ∧
    runSearchBatch eng mops searches Action.count scope cen o.docs = some o := by
  rw [runSearchBatch_count_not_marked eng mops searches scope cen docs hm] at ho
  obtain rfl : o = _ := (Option.some.inj ho).symm
  have hcorered : doAllCore eng searches false scope.files scope.editor cen docs =
      (docs, [], (searches.map (fun pr =>
        ((effectiveFiles scope.files cen).map
          (fun n => eng.findallCount pr.1 (docs n))).sum)).sum) := by
    unfold doAllCore
    rw [if_neg (by simp [heff])]
    rw [doAllPatterns_count_only eng (effectiveFiles scope.files cen) searches docs [] 0]
    simp
  have hdocs : (doAll eng searches false scope.files scope.editor cen docs).2 = docs := by
    funext m
    show (if m ∈ (doAllCore eng searches false scope.files scope.editor cen docs).2.1 then
        (doAllCore eng searches false scope.files scope.editor cen docs).1 m else docs m) = docs m
    rw [hcorered]
    simp
  refine ⟨rfl, rfl, rfl, ?_, ?_, ?_⟩
  · show (doAllCore eng searches false scope.files scope.editor cen docs).2.2 = _
    rw [hcorered]
  · intro m
    show (doAll eng searches false scope.files scope.editor cen docs).2 m = docs m
    rw [hdocs]
  · rw [runSearchBatch_count_not_marked eng mops searches scope cen
      ((doAll eng searches false scope.files scope.editor cen docs).2) hm]
    rw [hdocs]
    rw [hdocs]

/-- C10: replace-all with scope = marked performs the marked-region
replacement for each pattern in request order on the current editor,
reporting the accumulated occurrence sum, and never requests a
checkpoint (none created, kept or rewound), never marks the document set
modified, and touches no document other than the current editor's. -/
theorem claim_C10 {P R : Type} (eng : RegexEngine P R) (mops : MarkedOps P R)
    (searches : List (P × R)) (scope : SearchScope) (cen : String)
    (docs : String → String) (hm : scope.marked = true) (o : BatchOutcome)
    (ho : runSearchBatch eng mops searches Action.replace_all scope cen docs = some o) :
    o.savepointCreated = false ∧ o.savepointRewound = false ∧ o.setModifiedCalled = false ∧
    o.count = (composeSubs mops.allInMarkedRepl searches (docs cen)).2 ∧
    (∀ m, m ≠ cen → o.docs m = docs m) := by
  rw [runSearchBatch_replace_all_marked eng mops searches scope cen docs hm] at ho
  obtain rfl : o = _ := (Option.some.inj ho).symm
  refine ⟨rfl, rfl, rfl, rfl, ?_⟩
  intro m hne
  show Function.update docs cen (composeSubs mops.allInMarkedRepl searches (docs cen)).1 m = docs m
  rw [Function.update_noteq hne]

/-! Concrete fixtures used by the witnesses of the batch claims: a literal
one-shot engine (a document consisting exactly of the pattern text is
rewritten to the replacement, anything else is untouched), a two-document
store, and a scope over both documents. -/

def engW : RegexEngine String String :=
  ⟨fun p r s => if s = p then (r, 1) else (s, 0),
   fun p s => if s = p then 1 else 0⟩

def mopsW : MarkedOps String String :=
  ⟨fun _ r s => (r ++ s, 3), fun _ _ => 5⟩

def scopeW : SearchScope := ⟨some "a", Where.text, ["a", "b"], true, false⟩

def scopeM : SearchScope := ⟨some "a", Where.selected_text, [], true, true⟩

def docsW : String → String := fun n => if n = "a" then "x" else "q"

def searchesW : List (String × String) := [("x", "y")]

theorem engW_subn_zero :
    ∀ (p r s : String), (engW.subn p r s).2 = 0 → (engW.subn p r s).1 = s := by
  intro p r s h
  by_cases he : s = p
  · simp [engW, he] at h
  · simp [engW, he]

def oC1 : BatchOutcome :=
  ⟨(doAll engW searchesW true scopeW.files scopeW.editor "a" docsW).1,
   (doAll engW searchesW true scopeW.files scopeW.editor "a" docsW).2,
   true,
   decide ((doAll engW searchesW true scopeW.files scopeW.editor "a" docsW).1 = 0),
   ! decide ((doAll engW searchesW true scopeW.files scopeW.editor "a" docsW).1 = 0)⟩

theorem claim_C1_witness :
    oC1.savepointCreated = true ∧ oC1.savepointRewound = false ∧
    oC1.setModifiedCalled = true ∧ oC1.docs "a" = "y" ∧ oC1.docs "b" = "q" := by
  have h := claim_C1 engW mopsW searchesW scopeW "a" docsW rfl oC1
    (runSearchBatch_replace_all_not_marked engW mopsW searchesW scopeW "a" docsW rfl)
  have hpos : 0 < oC1.count := by decide
  obtain ⟨h1, _, h3⟩ := h
  obtain ⟨h31, h32, h33, h34, _⟩ := h3 hpos
  refine ⟨h1, h31, h32, ?_, ?_⟩
  · rw [h33 "a" (by decide)]
    decide
  · rw [h34 "b" (by decide)]
    decide

theorem claim_C7_witness :
    oC1.count = ((effectiveFiles scopeW.files "a").map
      (fun n => (composeSubs engW.subn searchesW (docsW n)).2)).sum ∧
    oC1.docs "a" = (composeSubs engW.subn searchesW (docsW "a")).1 := by
  have h := claim_C7 engW mopsW searchesW scopeW "a" docsW rfl rfl (by decide)
    engW_subn_zero oC1
    (runSearchBatch_replace_all_not_marked engW mopsW searchesW scopeW "a" docsW rfl)
  exact ⟨h.1, h.2 "a" (by decide)⟩

def oC8 : BatchOutcome :=
  ⟨(doAll engW searchesW false scopeW.files scopeW.editor "a" docsW).1,
   (doAll engW searchesW false scopeW.files scopeW.editor "a" docsW).2,
   false, false, false⟩

theorem claim_C8_witness :
    oC8.savepointCreated = false ∧ oC8.setModifiedCalled = false ∧
    oC8.count = 1 ∧ oC8.docs "a" = "x" ∧
    runSearchBatch engW mopsW searchesW Action.count scopeW "a" oC8.docs = some oC8 := by
  have h := claim_C8 engW mopsW searchesW scopeW "a" docsW rfl rfl oC8
    (runSearchBatch_count_not_marked engW mopsW searchesW scopeW "a" docsW rfl)
  refine ⟨h.1, h.2.2.1, ?_, ?_, h.2.2.2.2.2⟩
  · rw [h.2.2.2.1]
    decide
  · rw [h.2.2.2.2.1 "a"]
    decide

def oC10 : BatchOutcome :=
  ⟨(composeSubs mopsW.allInMarkedRepl searchesW (docsW "a")).2,
   Function.update docsW "a" (composeSubs mopsW.allInMarkedRepl searchesW (docsW "a")).1,
   false, false, false⟩

theorem claim_C10_witness :
    oC10.savepointCreated = false ∧ oC10.savepointRewound = false ∧
    oC10.setModifiedCalled = false ∧
    oC10.count = (composeSubs mopsW.allInMarkedRepl searchesW (docsW "a")).2 ∧
    oC10.docs "b" = "q" := by
  have h := claim_C10 engW mopsW searchesW scopeM "a" docsW rfl oC10
    (runSearchBatch_replace_all_marked engW mopsW searchesW scopeM "a" docsW rfl)
  refine ⟨h.1, h.2.1, h.2.2.1, h.2.2.2.1, ?_⟩
  · rw [h.2.2.2.2 "b" (by decide)]
    decide

end CalibreSearch
